import Mathlib

/-!
Shallow embedding of the meme canvas-editing engine of this repository
(`src/components/canvas-editor.tsx`, the fixed-frame variant that defines
`pushHistory`, `undo`, `redo`, `updateText`, `scaleImage`,
`bringForwardImage`, `sendBackwardImage`, `resetImageSize`, the pointer
handlers and `getDataURL`).

Modelling conventions:
* JavaScript numbers are modelled as rationals (`ℚ`); `Math.round` is
  `jsRound q = ⌊q + 1/2⌋` (round half towards positive infinity, the JS
  behaviour on finite values).
* `ctx.measureText(...).width` depends on the browser font engine, so text
  width is a parameter `mw : TextItem → ℚ` of every definition that needs
  it; the measured height is the font size, exactly as in `measureText`.
* `Math.cos(-angle)` / `Math.sin(-angle)` used by `hitTestTextLocal` are
  supplied by a parameter `trig : ℚ → ℚ × ℚ` from the rotation in degrees;
  theorems hold for every such function, hence for the real cosine/sine.
* `Math.hypot d e <= r` is written `d^2 + e^2 ≤ r^2`, equivalent for
  nonnegative `r`.
* The decoded-image cache `imageMapRef` is a parameter `hasEl : String →
  Bool` (respectively `natF : String → Option (ℚ × ℚ)` where the natural
  dimensions are read); the base image together with its natural size is
  `nat? : Option (ℚ × ℚ)`.
* Rendering is modelled by the sequences of layers each path actually
  draws, which is what the claims about the two paths quantify over.
-/

namespace Memelytics

/-- JS `Math.round` on finite numbers: floor of x + 1/2 (written with the
executable rational floor so that concrete runs evaluate). -/
def jsRound (q : ℚ) : ℤ := (q + 1/2).floor

/-- `TextItem` from canvas-editor.tsx (`rotationDeg?` is optional there). -/
structure TextItem where
  id : String
  text : String
  x : ℚ
  y : ℚ
  size : ℚ
  color : String
  font : String
  rotationDeg : Option ℚ
deriving DecidableEq, Repr

/-- `t.rotationDeg ?? 0` as used throughout the source. -/
def rotDeg (t : TextItem) : ℚ := t.rotationDeg.getD 0

/-- `Stroke` from canvas-editor.tsx. -/
structure Stroke where
  id : String
  points : List (ℚ × ℚ)
  color : String
  size : ℚ
deriving DecidableEq, Repr

/-- `ImageItem` from canvas-editor.tsx. -/
structure ImageItem where
  id : String
  src : String
  x : ℚ
  y : ℚ
  w : ℚ
  h : ℚ
deriving DecidableEq, Repr

instance : Inhabited ImageItem := ⟨⟨"", "", 0, 0, 0, 0⟩⟩

/-- `EditorState` from canvas-editor.tsx. -/
structure EditorState where
  rotationDeg : ℚ
  bgColor : String
  texts : List TextItem
  strokes : List Stroke
  images : List ImageItem
deriving DecidableEq, Repr

/-- `defaultState` from canvas-editor.tsx. -/
def defaultState : EditorState :=
  { rotationDeg := 0, bgColor := "#ffffff", texts := [], strokes := [], images := [] }

/-- The component state the claims observe: history stack with cursor
(`historyRef` / `historyIndexRef`), the current snapshot (`state`) and the
selection ids. -/
structure Editor where
  history : List EditorState
  historyIndex : ℕ
  state : EditorState
  selectedTextId : Option String
  selectedImageId : Option String
  editingTextId : Option String
deriving DecidableEq, Repr

/-- Initial component state: `useState(defaultState)`, `historyRef = [defaultState]`,
`historyIndexRef = 0`, no selection. -/
def initialEditor : Editor :=
  { history := [defaultState], historyIndex := 0, state := defaultState,
    selectedTextId := none, selectedImageId := none, editingTextId := none }

/-- `pushHistory`: slice off the redo tail, append, move the cursor to the
new tail, set the live state. -/
def pushHistory (ed : Editor) (next : EditorState) : Editor :=
  let hist := ed.history.take (ed.historyIndex + 1) ++ [next]
  { ed with history := hist, historyIndex := hist.length - 1, state := next }

/-- `canUndo = historyIndexRef.current > 0`. -/
def canUndo (ed : Editor) : Bool := decide (0 < ed.historyIndex)

/-- `canRedo = historyIndexRef.current < historyRef.current.length - 1`. -/
def canRedo (ed : Editor) : Bool := decide (ed.historyIndex + 1 < ed.history.length)

/-- `undo`: guarded cursor decrement, state restored from the stack. -/
def undo (ed : Editor) : Editor :=
  if canUndo ed then
    { ed with historyIndex := ed.historyIndex - 1,
              state := ed.history.getD (ed.historyIndex - 1) defaultState }
  else ed

/-- `redo`: guarded cursor increment, state restored from the stack. -/
def redo (ed : Editor) : Editor :=
  if canRedo ed then
    { ed with historyIndex := ed.historyIndex + 1,
              state := ed.history.getD (ed.historyIndex + 1) defaultState }
  else ed

/-- `contentSize`: natural dimensions of the base image, or the fixed
800 × 600 frame when none is loaded. -/
def contentSize (nat? : Option (ℚ × ℚ)) : ℚ × ℚ :=
  match nat? with
  | none => (800, 600)
  | some s => s

/-- `getImageBounds` returns the same dimensions (with origin 0,0). -/
def getImageBounds (nat? : Option (ℚ × ℚ)) : ℚ × ℚ := contentSize nat?

/-- The fields an `updateText(id, partial)` call may carry
(`Partial<TextItem>`; an absent field leaves the layer's field alone, as the
spread `{ ...t, ...partial }` does). -/
structure TextPatch where
  id : Option String := none
  text : Option String := none
  x : Option ℚ := none
  y : Option ℚ := none
  size : Option ℚ := none
  color : Option String := none
  font : Option String := none
  rotationDeg : Option ℚ := none
deriving DecidableEq, Repr

/-- `{ ...t, ...partial }`. -/
def applyPatch (p : TextPatch) (t : TextItem) : TextItem :=
  { id := p.id.getD t.id, text := p.text.getD t.text, x := p.x.getD t.x,
    y := p.y.getD t.y, size := p.size.getD t.size, color := p.color.getD t.color,
    font := p.font.getD t.font,
    rotationDeg := match p.rotationDeg with
      | none => t.rotationDeg
      | some v => some v }

/-- `updateText`: map-replace by id, push to history, select the id. -/
def updateText (ed : Editor) (id : String) (p : TextPatch) : Editor :=
  let nextTexts := ed.state.texts.map (fun t => if t.id == id then applyPatch p t else t)
  let ed2 := pushHistory ed { ed.state with texts := nextTexts }
  { ed2 with selectedTextId := some id }

/-- `removeText`: filter by id, push, clear selection when it pointed there. -/
def removeText (ed : Editor) (id : String) : Editor :=
  let ed2 := pushHistory ed
    { ed.state with texts := ed.state.texts.filter (fun t => !(t.id == id)) }
  if ed.selectedTextId = some id then
    { ed2 with selectedTextId := none, editingTextId := none }
  else ed2

/-- `removeImage`: filter by id, push, clear selection when it pointed there. -/
def removeImage (ed : Editor) (id : String) : Editor :=
  let ed2 := pushHistory ed
    { ed.state with images := ed.state.images.filter (fun i => !(i.id == id)) }
  if ed.selectedImageId = some id then { ed2 with selectedImageId := none }
  else ed2

/-- `scaleImage(id, factor)`: round-and-clamp both dimensions, no-op when the
id is absent. -/
def scaleImage (nat? : Option (ℚ × ℚ)) (ed : Editor) (id : String) (factor : ℚ) : Editor :=
  match ed.state.images.find? (fun i => i.id == id) with
  | none => ed
  | some it =>
    let W := (contentSize nat?).1
    let H := (contentSize nat?).2
    let newW : ℚ := max 16 ((jsRound (it.w * factor) : ℚ))
    let newH : ℚ := max 16 ((jsRound (it.h * factor) : ℚ))
    let clampedW := min newW (W - it.x)
    let clampedH := min newH (H - it.y)
    let imgs := ed.state.images.map
      (fun x => if x.id == id then { x with w := clampedW, h := clampedH } else x)
    pushHistory ed { ed.state with images := imgs }

/-- `bringForwardImage`: splice the image out and push it to the end of the
array (the source's `arr.push(item)`); early return leaves everything,
history included, untouched. -/
def bringForwardImage (ed : Editor) (id : String) : Editor :=
  match ed.state.images.findIdx? (fun i => i.id == id) with
  | none => ed
  | some idx =>
    if idx = ed.state.images.length - 1 then ed
    else
      let item := ed.state.images.getD idx default
      pushHistory ed { ed.state with images := ed.state.images.eraseIdx idx ++ [item] }

/-- `sendBackwardImage`: splice the image out and unshift it to the front of
the array. -/
def sendBackwardImage (ed : Editor) (id : String) : Editor :=
  match ed.state.images.findIdx? (fun i => i.id == id) with
  | none => ed
  | some idx =>
    if idx = 0 then ed
    else
      let item := ed.state.images.getD idx default
      pushHistory ed { ed.state with images := item :: ed.state.images.eraseIdx idx }

/-- `resetImageSize`: scale the image's natural size to fit the frame from
its current anchor (`el?.naturalWidth || it.w` falls back on a missing or
zero-width decoded element). -/
def resetImageSize (nat? : Option (ℚ × ℚ)) (natF : String → Option (ℚ × ℚ))
    (ed : Editor) (id : String) : Editor :=
  match ed.state.images.find? (fun i => i.id == id) with
  | none => ed
  | some it =>
    let W := (contentSize nat?).1
    let H := (contentSize nat?).2
    let natW := match natF it.id with
      | none => it.w
      | some nd => if nd.1 = 0 then it.w else nd.1
    let natH := match natF it.id with
      | none => it.h
      | some nd => if nd.2 = 0 then it.h else nd.2
    let scale := min (min ((W - it.x) / natW) ((H - it.y) / natH)) 1
    let newW := min ((jsRound (natW * scale) : ℚ)) (W - it.x)
    let newH := min ((jsRound (natH * scale) : ℚ)) (H - it.y)
    let imgs := ed.state.images.map
      (fun x => if x.id == id then { x with w := newW, h := newH } else x)
    pushHistory ed { ed.state with images := imgs }

/-- `onCanvasPointerMove`, image drag branch: anchor = pointer − offset,
clamped to keep the box corners in the frame. Live state only, no history. -/
def imageDragMove (nat? : Option (ℚ × ℚ)) (st : EditorState) (id : String)
    (offX offY px py : ℚ) : EditorState :=
  match st.images.find? (fun i => i.id == id) with
  | none => st
  | some it =>
    let W := (contentSize nat?).1
    let H := (contentSize nat?).2
    let newX := max 0 (min (W - it.w) (px - offX))
    let newY := max 0 (min (H - it.h) (py - offY))
    let imgs := st.images.map
      (fun x => if x.id == id then { x with x := newX, y := newY } else x)
    { st with images := imgs }

/-- `onCanvasPointerMove`, text drag branch: the anchor x is clamped to
`[0, contentW]` (not shrunk by the text width) and the baseline y to
`[size, contentH]`. -/
def textDragMove (nat? : Option (ℚ × ℚ)) (st : EditorState) (id : String)
    (offX offY px py : ℚ) : EditorState :=
  match st.texts.find? (fun t => t.id == id) with
  | none => st
  | some t =>
    let W := (contentSize nat?).1
    let H := (contentSize nat?).2
    let h := t.size
    let newX := max 0 (min W (px - offX))
    let newY := max h (min H (py - offY + h))
    let txts := st.texts.map
      (fun x => if x.id == id then { x with x := newX, y := newY } else x)
    { st with texts := txts }

/-- `onCanvasPointerMove`, image resize branch: uniform scale from the
smaller axis ratio, clamped to `[0.1, 10]`, floored at 16, then clamped to
the frame from the current anchor. -/
def imageResizeMove (nat? : Option (ℚ × ℚ)) (st : EditorState) (id : String)
    (startW startH px py : ℚ) : EditorState :=
  match st.images.find? (fun i => i.id == id) with
  | none => st
  | some it =>
    let W := (contentSize nat?).1
    let H := (contentSize nat?).2
    let dx := max 16 (px - it.x)
    let dy := max 16 (py - it.y)
    let scale := max (1/10) (min 10 (min (dx / startW) (dy / startH)))
    let newW : ℚ := max 16 ((jsRound (startW * scale) : ℚ))
    let newH : ℚ := max 16 ((jsRound (startH * scale) : ℚ))
    let clampedW := min newW (W - it.x)
    let clampedH := min newH (H - it.y)
    let imgs := st.images.map
      (fun x => if x.id == id then { x with w := clampedW, h := clampedH } else x)
    { st with images := imgs }

/-- Result record of `hitTestTextLocal`. -/
structure HitRes where
  within : Bool
  isOnRotate : Bool
  isOnResize : Bool
  cx : ℚ
  cy : ℚ
  w : ℚ
  h : ℚ
  lx : ℚ
  ly : ℚ
deriving DecidableEq, Repr

/-- `measureText`: the width comes from the canvas font engine (the
parameter `mw`); the height is the font size, as in the source. -/
def measureText (mw : TextItem → ℚ) (t : TextItem) : ℚ × ℚ := (mw t, t.size)

/-- `hitTestTextLocal`: inverse-rotate the point around the box center
(the cosine/sine pair of `-radians(rotationDeg)` is supplied by `trig`),
then test the body box, the circular rotate handle 16 above the box top
(radius 8, the `Math.hypot` comparison written with squares) and the square
resize handle at the bottom-right corner (tolerance 10). -/
def hitTestTextLocal (mw : TextItem → ℚ) (trig : ℚ → ℚ × ℚ)
    (pt : ℚ × ℚ) (t : TextItem) : HitRes :=
  let w := (measureText mw t).1
  let h := (measureText mw t).2
  let cx := t.x + w / 2
  let cy := t.y - h / 2
  let c := (trig (rotDeg t)).1
  let s := (trig (rotDeg t)).2
  let dx := pt.1 - cx
  let dy := pt.2 - cy
  let lx := dx * c - dy * s
  let ly := dx * s + dy * c
  let within := decide (-(w / 2) ≤ lx ∧ lx ≤ w / 2 ∧ -(h / 2) ≤ ly ∧ ly ≤ h / 2)
  let isOnRotate := decide ((lx - 0) ^ 2 + (ly - (-(h / 2) - 16)) ^ 2 ≤ 8 ^ 2)
  let isOnResize := decide (|lx - w / 2| ≤ 10 ∧ |ly - h / 2| ≤ 10)
  ⟨within, isOnRotate, isOnResize, cx, cy, w, h, lx, ly⟩

/-- The three session modes a text hit can start. -/
inductive HitKind
  | drag
  | rotate
  | resize
deriving DecidableEq, Repr

/-- The text hit loop of `onCanvasPointerDown`: iterate the texts from last
(topmost) to first and stop at the first hit; per text the zones are
checked rotate handle first, then resize handle, then body. -/
def textHitLoop (mw : TextItem → ℚ) (trig : ℚ → ℚ × ℚ)
    (pt : ℚ × ℚ) (texts : List TextItem) : Option (TextItem × HitKind) :=
  texts.reverse.findSome? (fun t =>
    if (hitTestTextLocal mw trig pt t).isOnRotate then some (t, HitKind.rotate)
    else if (hitTestTextLocal mw trig pt t).isOnResize then some (t, HitKind.resize)
    else if (hitTestTextLocal mw trig pt t).within then some (t, HitKind.drag)
    else none)

/-- The in-bounds test `getDataURL` applies to a text layer, written with
the same `cx ∓ tw/2`, `cy ∓ th/2` arithmetic as the source. -/
def textExportInBounds (mw : TextItem → ℚ) (W H : ℚ) (t : TextItem) : Bool :=
  let tw := (measureText mw t).1
  let th := (measureText mw t).2
  let cx := t.x + tw / 2
  let cy := t.y - th / 2
  decide (0 ≤ cx - tw / 2 ∧ cx + tw / 2 ≤ W ∧ 0 ≤ cy - th / 2 ∧ cy + th / 2 ≤ H)

/-- The in-bounds test `getDataURL` applies to an overlay image. -/
def imageExportInBounds (W H : ℚ) (it : ImageItem) : Bool :=
  decide (0 ≤ it.x ∧ it.x + it.w ≤ W ∧ 0 ≤ it.y ∧ it.y + it.h ≤ H)

/-- The per-point filter `getDataURL` applies to stroke points. -/
def pointInBounds (W H : ℚ) (p : ℚ × ℚ) : Bool :=
  decide (0 ≤ p.1 ∧ p.1 ≤ W ∧ 0 ≤ p.2 ∧ p.2 ≤ H)

/-- What the export raster of `getDataURL` is composed of: frame size,
whether the base image was drawn, and the layers actually drawn. -/
structure ExportOutput where
  w : ℚ
  h : ℚ
  baseDrawn : Bool
  drawnImages : List ImageItem
  drawnTexts : List TextItem
  drawnStrokes : List Stroke
deriving DecidableEq, Repr

/-- `getDataURL`: returns the empty string (here `none`) only when the
canvas element is missing; otherwise composes background, base image when
present, bounds-filtered overlay images and texts, and pointwise-filtered
strokes, and encodes the raster. -/
def getDataURL (canvasMounted : Bool) (hasEl : String → Bool) (mw : TextItem → ℚ)
    (nat? : Option (ℚ × ℚ)) (st : EditorState) : Option ExportOutput :=
  if ¬ canvasMounted then none
  else
    let W := (getImageBounds nat?).1
    let H := (getImageBounds nat?).2
    let drawnImages := st.images.filter (fun it => hasEl it.id && imageExportInBounds W H it)
    let drawnTexts := st.texts.filter (fun t => textExportInBounds mw W H t)
    let drawnStrokes := st.strokes.filterMap (fun s =>
      let pts := s.points.filter (fun p => pointInBounds W H p)
      if pts.length < 1 then none else some { s with points := pts })
    some { w := W, h := H, baseDrawn := nat?.isSome, drawnImages := drawnImages,
           drawnTexts := drawnTexts, drawnStrokes := drawnStrokes }

/-- The layers the preview path draws. -/
structure PreviewOutput where
  drawnImages : List ImageItem
  drawnTexts : List TextItem
  drawnStrokes : List Stroke
deriving DecidableEq, Repr

/-- `drawBaseCanvas`: with no base image only the placeholder is drawn
(`none` here); with one, every overlay image with a decoded element, every
text and every stroke is drawn, with no bounds check anywhere. -/
def drawBaseCanvas (hasEl : String → Bool) (nat? : Option (ℚ × ℚ))
    (st : EditorState) : Option PreviewOutput :=
  match nat? with
  | none => none
  | some _ =>
    some { drawnImages := st.images.filter (fun it => hasEl it.id),
           drawnTexts := st.texts,
           drawnStrokes := st.strokes }

/-- `getSelectedText`: `state.texts.find(t => t.id === selectedTextId) || null`. -/
def getSelectedText (ed : Editor) : Option TextItem :=
  match ed.selectedTextId with
  | none => none
  | some sid => ed.state.texts.find? (fun t => t.id == sid)

/-- `getSelectedImage`: `state.images.find(i => i.id === selectedImageId) || null`. -/
def getSelectedImage (ed : Editor) : Option ImageItem :=
  match ed.selectedImageId with
  | none => none
  | some sid => ed.state.images.find? (fun i => i.id == sid)

/-- The claim's reading of the drag clamp, from the spec's words: the
layer's full bounding box (anchor through anchor plus width and height; for
a text the box spans x to x + measured width and y − size to y) lies inside
the content frame. -/
def textBoxInsideFrame (mw : TextItem → ℚ) (W H : ℚ) (t : TextItem) : Prop :=
  0 ≤ t.x ∧ t.x + mw t ≤ W ∧ 0 ≤ t.y - t.size ∧ t.y ≤ H

instance (mw : TextItem → ℚ) (W H : ℚ) (t : TextItem) :
    Decidable (textBoxInsideFrame mw W H t) := by
  unfold textBoxInsideFrame
  infer_instance

/-- No clamp boundary engages in a `scaleImage` step: the rounded scaled
dimensions already sit at or above the 16 floor and within the frame
maximum from the image's anchor, so neither `Math.max` nor `Math.min`
changes the value. -/
def scaleClampFree (nat? : Option (ℚ × ℚ)) (it : ImageItem) (f : ℚ) : Prop :=
  16 ≤ ((jsRound (it.w * f) : ℚ))
  ∧ ((jsRound (it.w * f) : ℚ)) ≤ (contentSize nat?).1 - it.x
  ∧ 16 ≤ ((jsRound (it.h * f) : ℚ))
  ∧ ((jsRound (it.h * f) : ℚ)) ≤ (contentSize nat?).2 - it.y

instance (nat? : Option (ℚ × ℚ)) (it : ImageItem) (f : ℚ) :
    Decidable (scaleClampFree nat? it f) := by
  unfold scaleClampFree
  infer_instance

/-- An image respects the documented geometry invariants: nonnegative
anchor, the 16-unit minimum size, and containment in the content frame. -/
def imgFits (nat? : Option (ℚ × ℚ)) (it : ImageItem) : Prop :=
  0 ≤ it.x ∧ 0 ≤ it.y ∧ 16 ≤ it.w ∧ 16 ≤ it.h
  ∧ it.x + it.w ≤ (contentSize nat?).1 ∧ it.y + it.h ≤ (contentSize nat?).2

instance (nat? : Option (ℚ × ℚ)) (it : ImageItem) : Decidable (imgFits nat? it) := by
  unfold imgFits
  infer_instance

/-- A 3000 × 3000 base image, so the frame clamp stays far away. -/
def bigNat : Option (ℚ × ℚ) := some (3000, 3000)

/-- A decoded-element map whose every image has natural size 8 × 8. -/
def tinyNat : String → Option (ℚ × ℚ) := fun _ => some (8, 8)

/-- A 100 × 100 overlay image at the origin, used by concrete scenarios. -/
def cImg (s : String) : ImageItem := { id := s, src := "", x := 0, y := 0, w := 100, h := 100 }

/-- Editor holding the three overlay images a, b, c (in back-to-front
order). -/
def threeImagesEditor : Editor :=
  { initialEditor with
      state := { defaultState with images := [cImg "a", cImg "b", cImg "c"] },
      history := [{ defaultState with images := [cImg "a", cImg "b", cImg "c"] }] }

/-- A 173 × 173 image at the origin. -/
def img173 : ImageItem := { id := "a", src := "", x := 0, y := 0, w := 173, h := 173 }

/-- Editor holding only `img173`. -/
def ed173 : Editor :=
  { initialEditor with
      state := { defaultState with images := [img173] },
      history := [{ defaultState with images := [img173] }] }

/-- Editor holding one 100 × 100 image named a. -/
def edImg100 : Editor :=
  { initialEditor with
      state := { defaultState with images := [cImg "a"] },
      history := [{ defaultState with images := [cImg "a"] }] }

/-- A text layer used by the drag counterexample. -/
def tDrag : TextItem :=
  { id := "t", text := "hi", x := 100, y := 40, size := 20, color := "#000000",
    font := "Fredoka One", rotationDeg := some 0 }

/-- State holding only `tDrag`. -/
def stDrag : EditorState := { defaultState with texts := [tDrag] }

/-- A measure function assigning every text the width 50. -/
def mwFifty : TextItem → ℚ := fun _ => 50

/-- The cosine/sine pair of rotation 0, a valid `trig` instantiation. -/
def trigZero : ℚ → ℚ × ℚ := fun _ => (1, 0)

/-- A decoded-element cache containing every id. -/
def allEl : String → Bool := fun _ => true

/-- A stroke with one point inside and one outside the 800 × 600 frame. -/
def strokeOut : Stroke :=
  { id := "s", points := [(10, 10), (900, 10)], color := "#111111", size := 6 }

/-- State holding only `strokeOut`. -/
def stStroke : EditorState := { defaultState with strokes := [strokeOut] }

/-- A text layer at x = contentWidth − 1 for the export-bounds scenario. -/
def tEdge : TextItem :=
  { id := "e", text := "WIDE", x := 799, y := 100, size := 30, color := "#000000",
    font := "Fredoka One", rotationDeg := none }

/-- State holding only `tEdge`. -/
def stEdge : EditorState := { defaultState with texts := [tEdge] }

/-- A text layer whose rotate handle is tested at a concrete point. -/
def tHit : TextItem :=
  { id := "a", text := "hi", x := 0, y := 40, size := 40, color := "#000000",
    font := "Fredoka One", rotationDeg := none }

/-- Mapping an id-guarded update over a list with no matching id changes
nothing. -/
theorem map_ite_id_of_not_mem {l : List TextItem} {id : String}
    (f : TextItem → TextItem) (h : ∀ t ∈ l, t.id ≠ id) :
    l.map (fun t => if t.id == id then f t else t) = l := by
  induction l with
  | nil => rfl
  | cons a l ih =>
    simp only [List.map_cons]
    rw [if_neg (by simp [h a (List.mem_cons_self a l)]), ih]
    exact fun t ht => h t (List.mem_cons_of_mem _ ht)

/-- Image version of `map_ite_id_of_not_mem`. -/
theorem map_ite_id_of_not_mem_img {l : List ImageItem} {id : String}
    (f : ImageItem → ImageItem) (h : ∀ i ∈ l, i.id ≠ id) :
    l.map (fun i => if i.id == id then f i else i) = l := by
  induction l with
  | nil => rfl
  | cons a l ih =>
    simp only [List.map_cons]
    rw [if_neg (by simp [h a (List.mem_cons_self a l)]), ih]
    exact fun i hi => h i (List.mem_cons_of_mem _ hi)

/-- The executable rounding agrees with the mathematical floor of x + 1/2. -/
theorem jsRound_eq_floor (q : ℚ) : jsRound q = ⌊q + 1/2⌋ := by
  unfold jsRound
  rw [Rat.floor_def', Rat.floor_def]

/-- `Math.round` of an integer value is that value. -/
theorem jsRound_intCast (n : ℤ) : jsRound (n : ℚ) = n := by
  rw [jsRound_eq_floor, Int.floor_int_add]
  norm_num

/-- `find?` returns the element when it matches, is present, and is the only
value matching the predicate. -/
theorem find?_eq_some_of_mem_unique {α : Type} {p : α → Bool} {l : List α} {a : α}
    (hmem : a ∈ l) (hp : p a = true) (huniq : ∀ b ∈ l, p b = true → b = a) :
    l.find? p = some a := by
  induction l with
  | nil => cases hmem
  | cons x xs ih =>
    by_cases hx : p x = true
    · have hxa : x = a := huniq x (List.mem_cons_self x xs) hx
      subst hxa
      exact List.find?_cons_of_pos xs hx
    · have hmem' : a ∈ xs := by
        rcases List.mem_cons.mp hmem with rfl | hm
        · exact absurd hp hx
        · exact hm
      rw [List.find?_cons_of_neg xs hx]
      exact ih hmem' (fun b hb hpb => huniq b (List.mem_cons_of_mem _ hb) hpb)

/-- A map whose function fixes every element of the list is the identity. -/
theorem map_eq_self_of_eq {α : Type} {l : List α} {f : α → α}
    (h : ∀ a ∈ l, f a = a) : l.map f = l := by
  induction l with
  | nil => rfl
  | cons a l ih =>
    simp only [List.map_cons]
    rw [h a (List.mem_cons_self a l), ih (fun b hb => h b (List.mem_cons_of_mem _ hb))]

end Memelytics

namespace Memelytics

/-- History manager contract (claim C1): commit truncates the redo tail,
appends, advances the cursor to the new tail; undo and redo move the cursor
by one when in range and restore the snapshot there, and are no-ops at the
ends; and in the two-commit scenario undo yields s1, redo yields s2, and a
commit after an undo discards the ability to redo to s2. -/
theorem historyManager_contract (ed : Editor) (hinv : ed.historyIndex < ed.history.length)
    (s1 s2 s3 : EditorState) :
    (pushHistory ed s1).history = ed.history.take (ed.historyIndex + 1) ++ [s1]
    ∧ (pushHistory ed s1).historyIndex = (pushHistory ed s1).history.length - 1
    ∧ (pushHistory ed s1).state = s1
    ∧ (0 < ed.historyIndex →
        (undo ed).historyIndex = ed.historyIndex - 1
        ∧ (undo ed).state = ed.history.getD (ed.historyIndex - 1) defaultState)
    ∧ (ed.historyIndex = 0 → undo ed = ed)
    ∧ (ed.historyIndex + 1 < ed.history.length →
        (redo ed).historyIndex = ed.historyIndex + 1
        ∧ (redo ed).state = ed.history.getD (ed.historyIndex + 1) defaultState)
    ∧ (¬ ed.historyIndex + 1 < ed.history.length → redo ed = ed)
    ∧ ((undo (pushHistory (pushHistory ed s1) s2)).state = s1
        ∧ (redo (undo (pushHistory (pushHistory ed s1) s2))).state = s2
        ∧ redo (pushHistory (undo (pushHistory (pushHistory ed s1) s2)) s3)
            = pushHistory (undo (pushHistory (pushHistory ed s1) s2)) s3
        ∧ (pushHistory (undo (pushHistory (pushHistory ed s1) s2)) s3).state = s3) := by
  have htake : (ed.history.take (ed.historyIndex + 1)).length = ed.historyIndex + 1 := by
    rw [List.length_take]
    omega
  refine ⟨rfl, rfl, rfl, ?_, ?_, ?_, ?_, ?_⟩
  · intro hpos
    rw [undo, canUndo]
    simp [hpos]
  · intro hz
    rw [undo, canUndo]
    simp [hz]
  · intro hlt
    rw [redo, canRedo]
    simp [hlt]
  · intro hge
    rw [redo, canRedo]
    simp [hge]
  · -- the commit-commit-undo-redo scenario
    set pre := ed.history.take (ed.historyIndex + 1) with hpre
    have h1h : (pushHistory ed s1).history = pre ++ [s1] := rfl
    have h1i : (pushHistory ed s1).historyIndex = ed.historyIndex + 1 := by
      simp [pushHistory, htake]
    have h2h : (pushHistory (pushHistory ed s1) s2).history = pre ++ [s1, s2] := by
      show (pushHistory ed s1).history.take ((pushHistory ed s1).historyIndex + 1) ++ [s2]
          = pre ++ [s1, s2]
      rw [h1h, h1i, List.take_of_length_le (by simp [htake]), List.append_assoc]
      rfl
    have h2len : (pushHistory (pushHistory ed s1) s2).history.length
        = ed.historyIndex + 3 := by
      rw [h2h]; simp [htake]
    have h2i : (pushHistory (pushHistory ed s1) s2).historyIndex = ed.historyIndex + 2 := by
      show (pushHistory (pushHistory ed s1) s2).history.length - 1 = ed.historyIndex + 2
      rw [h2len]
      omega
    have hcu : canUndo (pushHistory (pushHistory ed s1) s2) = true := by
      simp [canUndo, h2i]
    have hgd : (pushHistory (pushHistory ed s1) s2).history.getD
        ((pushHistory (pushHistory ed s1) s2).historyIndex - 1) defaultState = s1 := by
      rw [h2h, h2i]
      have hidx : ed.historyIndex + 2 - 1 = ed.historyIndex + 1 := by omega
      rw [hidx, List.getD_eq_getElem?_getD,
        List.getElem?_append_right (by rw [htake])]
      simp [htake]
    have hus : (undo (pushHistory (pushHistory ed s1) s2)).state = s1 := by
      unfold undo
      rw [if_pos hcu]
      exact hgd
    have hui : (undo (pushHistory (pushHistory ed s1) s2)).historyIndex
        = ed.historyIndex + 1 := by
      unfold undo
      rw [if_pos hcu]
      show (pushHistory (pushHistory ed s1) s2).historyIndex - 1 = ed.historyIndex + 1
      rw [h2i]
      omega
    have huh : (undo (pushHistory (pushHistory ed s1) s2)).history = pre ++ [s1, s2] := by
      unfold undo
      rw [if_pos hcu]
      exact h2h
    refine ⟨hus, ?_, ?_, rfl⟩
    · -- redo after the undo restores s2
      have hcr : canRedo (undo (pushHistory (pushHistory ed s1) s2)) = true := by
        simp only [canRedo, hui, huh, decide_eq_true_eq]
        simp [htake]
      unfold redo
      rw [if_pos hcr]
      show (undo (pushHistory (pushHistory ed s1) s2)).history.getD
          ((undo (pushHistory (pushHistory ed s1) s2)).historyIndex + 1) defaultState = s2
      rw [huh, hui, List.getD_eq_getElem?_getD,
        List.getElem?_append_right (by rw [htake]; omega)]
      have hidx : ed.historyIndex + 1 + 1 - pre.length = 1 := by rw [htake]; omega
      rw [hidx]
      rfl
    · -- a commit after the undo leaves nothing to redo
      have h4h : (pushHistory (undo (pushHistory (pushHistory ed s1) s2)) s3).history
          = pre ++ [s1, s3] := by
        show (undo (pushHistory (pushHistory ed s1) s2)).history.take
            ((undo (pushHistory (pushHistory ed s1) s2)).historyIndex + 1) ++ [s3]
          = pre ++ [s1, s3]
        rw [huh, hui]
        have hsplit : pre ++ [s1, s2] = (pre ++ [s1]) ++ [s2] := by
          rw [List.append_assoc]; rfl
        rw [hsplit, List.take_append_of_le_length (by simp [htake]),
          List.take_of_length_le (by simp [htake]), List.append_assoc]
        rfl
      have h4i : (pushHistory (undo (pushHistory (pushHistory ed s1) s2)) s3).historyIndex
          = ed.historyIndex + 2 := by
        show (pushHistory (undo (pushHistory (pushHistory ed s1) s2)) s3).history.length - 1
            = ed.historyIndex + 2
        rw [h4h]
        simp [htake]
      have hcr4 : canRedo (pushHistory (undo (pushHistory (pushHistory ed s1) s2)) s3)
          = false := by
        simp only [canRedo, h4i, h4h, decide_eq_false_iff_not]
        simp [htake]
      unfold redo
      rw [if_neg]
      rw [hcr4]
      simp

/-- Witness for the history contract at a concrete editor and states. -/
theorem historyManager_contract_witness :
    (undo (pushHistory (pushHistory initialEditor { defaultState with bgColor := "#111111" })
      { defaultState with bgColor := "#222222" })).state
      = { defaultState with bgColor := "#111111" } :=
  (historyManager_contract initialEditor (by decide)
    { defaultState with bgColor := "#111111" }
    { defaultState with bgColor := "#222222" }
    { defaultState with bgColor := "#333333" }).2.2.2.2.2.2.2.1

end Memelytics

namespace Memelytics

/-- Counterexample to claim C3: with three images a, b, c (back to front),
`bringForwardImage` on a moves it past both others to the very front,
producing b, c, a — not the adjacent swap b, a, c the claim predicts, so
the moved image's new neighbor set is the former topmost image, not its
former neighbor. -/
theorem zorder_adjacent_swap_cex :
    (bringForwardImage threeImagesEditor "a").state.images = [cImg "b", cImg "c", cImg "a"]
    ∧ [cImg "b", cImg "c", cImg "a"] ≠ [cImg "b", cImg "a", cImg "c"] := by
  decide

/-- Claim C3 as amended: `bringForwardImage` on the topmost image and
`sendBackwardImage` on the bottommost image (or an absent id) are complete
no-ops, pushing no history entry; otherwise the moved image is spliced out
and appended at the very end (respectively prepended at the very front) of
the sequence, the relative order of all other images being preserved, and
one history entry is pushed. -/
theorem zorder_moves (ed : Editor) (id : String) :
    (ed.state.images.findIdx? (fun i => i.id == id) = none →
      bringForwardImage ed id = ed ∧ sendBackwardImage ed id = ed)
    ∧ (∀ idx, ed.state.images.findIdx? (fun i => i.id == id) = some idx →
        (idx = ed.state.images.length - 1 → bringForwardImage ed id = ed)
        ∧ (idx ≠ ed.state.images.length - 1 →
            (bringForwardImage ed id).state.images
              = ed.state.images.eraseIdx idx ++ [ed.state.images.getD idx default]
            ∧ (bringForwardImage ed id).history
              = ed.history.take (ed.historyIndex + 1) ++ [(bringForwardImage ed id).state])
        ∧ (idx = 0 → sendBackwardImage ed id = ed)
        ∧ (idx ≠ 0 →
            (sendBackwardImage ed id).state.images
              = ed.state.images.getD idx default :: ed.state.images.eraseIdx idx
            ∧ (sendBackwardImage ed id).history
              = ed.history.take (ed.historyIndex + 1) ++ [(sendBackwardImage ed id).state])) := by
  constructor
  · intro h
    constructor
    · simp only [bringForwardImage, h]
    · simp only [sendBackwardImage, h]
  · intro idx h
    refine ⟨?_, ?_, ?_, ?_⟩
    · intro he
      simp only [bringForwardImage, h]
      rw [if_pos he]
    · intro hne
      simp only [bringForwardImage, h]
      rw [if_neg hne]
      exact ⟨rfl, rfl⟩
    · intro he
      simp only [sendBackwardImage, h]
      rw [if_pos he]
    · intro hne
      simp only [sendBackwardImage, h]
      rw [if_neg hne]
      exact ⟨rfl, rfl⟩

/-- Witness for `zorder_moves` on the middle image b of a, b, c. -/
theorem zorder_moves_witness :
    (bringForwardImage threeImagesEditor "b").state.images
      = [cImg "a", cImg "c", cImg "b"]
    ∧ (sendBackwardImage threeImagesEditor "b").state.images
      = [cImg "b", cImg "a", cImg "c"] := by
  have h := (zorder_moves threeImagesEditor "b").2 1 (by decide)
  refine ⟨?_, ?_⟩
  · rw [(h.2.1 (by decide)).1]
    decide
  · rw [(h.2.2.2 (by decide)).1]
    decide

/-- Counterexample to claim C6: `updateText` on an id absent from the
snapshot is not a no-op — it pushes a duplicate history entry (the undo
stack grows from one to two entries) and sets the text selection to the
missing id. -/
theorem updateText_missing_id_cex :
    updateText initialEditor "z" {} ≠ initialEditor
    ∧ (updateText initialEditor "z" {}).history.length = 2
    ∧ initialEditor.history.length = 1
    ∧ (updateText initialEditor "z" {}).selectedTextId = some "z"
    ∧ initialEditor.selectedTextId = none := by
  decide

/-- Claim C6 as amended: `updateText` with an id that occurs in no text
leaves the snapshot value-unchanged (so the layer sequences are untouched),
but it still pushes a history entry equal to the current snapshot, moves
the cursor to the new tail, and sets the text selection to the given id. -/
theorem updateText_missing_id (ed : Editor) (id : String) (p : TextPatch)
    (h : ∀ t ∈ ed.state.texts, t.id ≠ id) :
    (updateText ed id p).state = ed.state
    ∧ (updateText ed id p).history = ed.history.take (ed.historyIndex + 1) ++ [ed.state]
    ∧ (updateText ed id p).historyIndex
        = (ed.history.take (ed.historyIndex + 1) ++ [ed.state]).length - 1
    ∧ (updateText ed id p).selectedTextId = some id
    ∧ (updateText ed id p).selectedImageId = ed.selectedImageId := by
  have hmap := map_ite_id_of_not_mem (applyPatch p) h
  have hstate : ({ ed.state with texts := ed.state.texts.map (fun t => if t.id == id then applyPatch p t else t) } : EditorState) = ed.state := by
    rw [hmap]
  have key : updateText ed id p = { pushHistory ed ed.state with selectedTextId := some id } := by
    show ({ pushHistory ed ({ ed.state with texts := ed.state.texts.map (fun t => if t.id == id then applyPatch p t else t) }) with selectedTextId := some id } : Editor) = { pushHistory ed ed.state with selectedTextId := some id }
    rw [hstate]
  refine ⟨?_, ?_, ?_, ?_, ?_⟩ <;> (rw [key]; try rfl)

/-- Witness for `updateText_missing_id` on the initial editor. -/
theorem updateText_missing_id_witness :
    (updateText initialEditor "z" {}).state = initialEditor.state
    ∧ (updateText initialEditor "z" {}).history
        = initialEditor.history.take (initialEditor.historyIndex + 1) ++ [initialEditor.state]
    ∧ (updateText initialEditor "z" {}).historyIndex
        = (initialEditor.history.take (initialEditor.historyIndex + 1)
            ++ [initialEditor.state]).length - 1
    ∧ (updateText initialEditor "z" {}).selectedTextId = some "z"
    ∧ (updateText initialEditor "z" {}).selectedImageId = initialEditor.selectedImageId :=
  updateText_missing_id initialEditor "z" {}
    (by intro t ht; simp [initialEditor, defaultState] at ht)

end Memelytics

namespace Memelytics

/-- Counterexample to claim C8: scaling the 173 × 173 image by 1/10 and
then by 10 inside a 3000 × 3000 frame hits no clamp boundary in either step
(each rounded value is at least 16 and well within the frame), yet the
round trip lands on 170 × 170 — `Math.round` alone already breaks the
restoration. -/
theorem scale_roundtrip_cex :
    scaleClampFree bigNat img173 (1/10)
    ∧ scaleClampFree bigNat { img173 with w := 17, h := 17 } 10
    ∧ (scaleImage bigNat ed173 "a" (1/10)).state.images = [{ img173 with w := 17, h := 17 }]
    ∧ (scaleImage bigNat (scaleImage bigNat ed173 "a" (1/10)) "a" 10).state.images
        = [{ img173 with w := 170, h := 170 }]
    ∧ ({ img173 with w := 170, h := 170 } : ImageItem) ≠ img173 := by
  have hstep1 : (scaleImage bigNat ed173 "a" (1/10)).state.images
      = [{ img173 with w := 17, h := 17 }] := by
    have hfind : ed173.state.images.find? (fun i => i.id == "a") = some img173 := rfl
    simp only [scaleImage, hfind, jsRound_eq_floor]
    norm_num [img173, ed173, defaultState, initialEditor, contentSize, bigNat, pushHistory]
  have hstep2 : (scaleImage bigNat (scaleImage bigNat ed173 "a" (1/10)) "a" 10).state.images
      = [{ img173 with w := 170, h := 170 }] := by
    set ed1 := scaleImage bigNat ed173 "a" (1/10) with hed1
    have hfind2 : ed1.state.images.find? (fun i => i.id == "a")
        = some { img173 with w := 17, h := 17 } := by
      rw [hstep1]
      rfl
    simp only [scaleImage, hfind2, jsRound_eq_floor, pushHistory]
    rw [hstep1]
    norm_num [img173, contentSize, bigNat]
  refine ⟨?_, ?_, hstep1, hstep2, ?_⟩
  · simp only [scaleClampFree, jsRound_eq_floor]
    norm_num [img173, contentSize, bigNat]
  · simp only [scaleClampFree, jsRound_eq_floor]
    norm_num [img173, contentSize, bigNat]
  · simp [img173]

/-- Claim C8 as amended: scaling by f and then by 1/f restores the original
dimensions provided no clamp boundary is hit in either step AND the two
`Math.round` applications are exact (the original and the scaled dimensions
are integral); without the integrality proviso rounding alone can perturb
the result, as the counterexample shows. -/
theorem scale_roundtrip (nat? : Option (ℚ × ℚ)) (ed : Editor) (id : String)
    (it : ImageItem) (f : ℚ)
    (hmem : it ∈ ed.state.images) (hid : it.id = id)
    (huniq : ∀ j ∈ ed.state.images, j.id = id → j = it)
    (hf : f ≠ 0)
    (hwint : ∃ n : ℤ, it.w = (n : ℚ)) (hhint : ∃ n : ℤ, it.h = (n : ℚ))
    (hwfint : ∃ n : ℤ, it.w * f = (n : ℚ)) (hhfint : ∃ n : ℤ, it.h * f = (n : ℚ))
    (hfree1 : scaleClampFree nat? it f)
    (hfw2 : 16 ≤ it.w) (hfwW : it.w ≤ (contentSize nat?).1 - it.x)
    (hfh2 : 16 ≤ it.h) (hfhH : it.h ≤ (contentSize nat?).2 - it.y) :
    (scaleImage nat? (scaleImage nat? ed id f) id (1/f)).state.images = ed.state.images := by
  obtain ⟨hfw16, hfwF, hfh16, hfhF⟩ := hfree1
  have hbeq : (it.id == id) = true := by simp [hid]
  have hrW : ((jsRound (it.w * f)) : ℚ) = it.w * f := by
    obtain ⟨n, hn⟩ := hwfint
    rw [hn, jsRound_intCast]
  have hrH : ((jsRound (it.h * f)) : ℚ) = it.h * f := by
    obtain ⟨n, hn⟩ := hhfint
    rw [hn, jsRound_intCast]
  have hclW : min (max 16 ((jsRound (it.w * f)) : ℚ)) ((contentSize nat?).1 - it.x)
      = it.w * f := by
    rw [hrW, max_eq_right (hrW ▸ hfw16), min_eq_left (hrW ▸ hfwF)]
  have hclH : min (max 16 ((jsRound (it.h * f)) : ℚ)) ((contentSize nat?).2 - it.y)
      = it.h * f := by
    rw [hrH, max_eq_right (hrH ▸ hfh16), min_eq_left (hrH ▸ hfhF)]
  have hfind1 : ed.state.images.find? (fun i => i.id == id) = some it :=
    find?_eq_some_of_mem_unique hmem hbeq
      (fun b hb hpb => huniq b hb (by simpa using hpb))
  have h1 : (scaleImage nat? ed id f).state.images
      = ed.state.images.map
          (fun x => if x.id == id then { x with w := it.w * f, h := it.h * f } else x) := by
    simp only [scaleImage, hfind1]
    rw [hclW, hclH]
    rfl
  set ed1 := scaleImage nat? ed id f with hed1
  have hit1mem : ({ it with w := it.w * f, h := it.h * f } : ImageItem)
      ∈ ed1.state.images := by
    rw [h1]
    have hm := List.mem_map_of_mem
      (fun x => if x.id == id then { x with w := it.w * f, h := it.h * f } else x) hmem
    simpa [hbeq] using hm
  have hfind2 : ed1.state.images.find? (fun i => i.id == id)
      = some { it with w := it.w * f, h := it.h * f } := by
    refine find?_eq_some_of_mem_unique hit1mem hbeq ?_
    intro b hb hpb
    rw [h1] at hb
    obtain ⟨j, hj, rfl⟩ := List.mem_map.mp hb
    by_cases hj2 : (j.id == id) = true
    · have hje : j = it := huniq j hj (by simpa using hj2)
      subst hje
      simp [hbeq]
    · rw [if_neg hj2] at hpb
      exact absurd hpb hj2
  have e1 : ({ it with w := it.w * f, h := it.h * f } : ImageItem).w * (1/f) = it.w := by
    show it.w * f * (1/f) = it.w
    rw [mul_assoc, mul_one_div_cancel hf, mul_one]
  have e2 : ({ it with w := it.w * f, h := it.h * f } : ImageItem).h * (1/f) = it.h := by
    show it.h * f * (1/f) = it.h
    rw [mul_assoc, mul_one_div_cancel hf, mul_one]
  have hrW2 : ((jsRound (({ it with w := it.w * f, h := it.h * f } : ImageItem).w * (1/f))) : ℚ) = it.w := by
    rw [e1]
    obtain ⟨n, hn⟩ := hwint
    rw [hn, jsRound_intCast]
  have hrH2 : ((jsRound (({ it with w := it.w * f, h := it.h * f } : ImageItem).h * (1/f))) : ℚ) = it.h := by
    rw [e2]
    obtain ⟨n, hn⟩ := hhint
    rw [hn, jsRound_intCast]
  have hclW2 : min (max 16 ((jsRound (({ it with w := it.w * f, h := it.h * f } : ImageItem).w * (1/f))) : ℚ)) ((contentSize nat?).1 - ({ it with w := it.w * f, h := it.h * f } : ImageItem).x)
      = it.w := by
    rw [hrW2]
    show min (max 16 it.w) ((contentSize nat?).1 - it.x) = it.w
    rw [max_eq_right hfw2, min_eq_left hfwW]
  have hclH2 : min (max 16 ((jsRound (({ it with w := it.w * f, h := it.h * f } : ImageItem).h * (1/f))) : ℚ)) ((contentSize nat?).2 - ({ it with w := it.w * f, h := it.h * f } : ImageItem).y)
      = it.h := by
    rw [hrH2]
    show min (max 16 it.h) ((contentSize nat?).2 - it.y) = it.h
    rw [max_eq_right hfh2, min_eq_left hfhH]
  have h2 : (scaleImage nat? ed1 id (1/f)).state.images
      = ed1.state.images.map
          (fun x => if x.id == id then { x with w := it.w, h := it.h } else x) := by
    simp only [scaleImage, hfind2]
    rw [hclW2, hclH2]
    rfl
  rw [h2, h1, List.map_map]
  apply map_eq_self_of_eq
  intro j hj
  by_cases hj2 : (j.id == id) = true
  · have hje : j = it := huniq j hj (by simpa using hj2)
    subst hje
    simp [Function.comp, hbeq]
  · simp [Function.comp, hj2]

/-- Witness for `scale_roundtrip`: doubling and halving the 100 × 100 image
inside the 3000 × 3000 frame restores it exactly. -/
theorem scale_roundtrip_witness :
    (scaleImage bigNat (scaleImage bigNat edImg100 "a" 2) "a" (1/2)).state.images
      = edImg100.state.images :=
  scale_roundtrip bigNat edImg100 "a" (cImg "a") 2 (by decide) (by decide)
    (by intro j hj hjid; simpa [edImg100, defaultState, initialEditor] using hj)
    (by norm_num) ⟨100, by norm_num [cImg]⟩ ⟨100, by norm_num [cImg]⟩
    ⟨200, by norm_num [cImg]⟩ ⟨200, by norm_num [cImg]⟩
    (by simp only [scaleClampFree, jsRound_eq_floor]; norm_num [cImg, contentSize, bigNat])
    (by norm_num [cImg]) (by norm_num [cImg, bigNat, contentSize])
    (by norm_num [cImg]) (by norm_num [cImg, bigNat, contentSize])

end Memelytics

namespace Memelytics

/-- Counterexample to claim C9: `resetImageSize` on a 100 × 100 image whose
decoded element has natural size 8 × 8 shrinks it to 8 × 8, below the
claimed 16-unit invariant, starting from a state where the invariant held. -/
theorem minSize_cex :
    edImg100.state.images = [cImg "a"]
    ∧ (16 ≤ (cImg "a").w ∧ 16 ≤ (cImg "a").h)
    ∧ (resetImageSize (some (800, 600)) tinyNat edImg100 "a").state.images
        = [{ cImg "a" with w := 8, h := 8 }]
    ∧ ¬ (16 ≤ ({ cImg "a" with w := 8, h := 8 } : ImageItem).w) := by
  refine ⟨rfl, ?_, ?_, ?_⟩
  · norm_num [cImg]
  · have hfind : edImg100.state.images.find? (fun i => i.id == "a") = some (cImg "a") := rfl
    simp only [resetImageSize, hfind, tinyNat, jsRound_eq_floor, pushHistory]
    norm_num [cImg, contentSize, edImg100, defaultState, initialEditor]
  · norm_num [cImg]

/-- Claim C9 as amended: the 16-unit floor (together with frame containment
of the resized image) is preserved by the clamping mutators — `scaleImage`
and the interactive resize step — but not by `resetImageSize`, which can
drop a dimension to the decoded element's natural size (see the
counterexample). -/
theorem minSize_preserved (nat? : Option (ℚ × ℚ)) (ed : Editor) (st : EditorState)
    (id : String) (f startW startH px py : ℚ)
    (hall : ∀ i ∈ ed.state.images, imgFits nat? i)
    (hall2 : ∀ i ∈ st.images, imgFits nat? i) :
    (∀ i ∈ (scaleImage nat? ed id f).state.images, 16 ≤ i.w ∧ 16 ≤ i.h)
    ∧ (∀ i ∈ (imageResizeMove nat? st id startW startH px py).images, 16 ≤ i.w ∧ 16 ≤ i.h) := by
  constructor
  · cases hf2 : ed.state.images.find? (fun i => i.id == id) with
    | none =>
      simp only [scaleImage, hf2]
      intro i hi
      exact ⟨(hall i hi).2.2.1, (hall i hi).2.2.2.1⟩
    | some it =>
      have hitmem := List.mem_of_find?_eq_some hf2
      obtain ⟨hx0, hy0, hw16, hh16, hxw, hyh⟩ := hall it hitmem
      have hWx : (16:ℚ) ≤ (contentSize nat?).1 - it.x := by linarith
      have hHy : (16:ℚ) ≤ (contentSize nat?).2 - it.y := by linarith
      simp only [scaleImage, hf2, pushHistory]
      intro i hi
      obtain ⟨j, hj, rfl⟩ := List.mem_map.mp hi
      by_cases hj2 : (j.id == id) = true
      · rw [if_pos hj2]
        exact ⟨le_min (le_max_left 16 _) hWx, le_min (le_max_left 16 _) hHy⟩
      · rw [if_neg hj2]
        exact ⟨(hall j hj).2.2.1, (hall j hj).2.2.2.1⟩
  · cases hf2 : st.images.find? (fun i => i.id == id) with
    | none =>
      simp only [imageResizeMove, hf2]
      intro i hi
      exact ⟨(hall2 i hi).2.2.1, (hall2 i hi).2.2.2.1⟩
    | some it =>
      have hitmem := List.mem_of_find?_eq_some hf2
      obtain ⟨hx0, hy0, hw16, hh16, hxw, hyh⟩ := hall2 it hitmem
      have hWx : (16:ℚ) ≤ (contentSize nat?).1 - it.x := by linarith
      have hHy : (16:ℚ) ≤ (contentSize nat?).2 - it.y := by linarith
      simp only [imageResizeMove, hf2]
      intro i hi
      obtain ⟨j, hj, rfl⟩ := List.mem_map.mp hi
      by_cases hj2 : (j.id == id) = true
      · rw [if_pos hj2]
        exact ⟨le_min (le_max_left 16 _) hWx, le_min (le_max_left 16 _) hHy⟩
      · rw [if_neg hj2]
        exact ⟨(hall2 j hj).2.2.1, (hall2 j hj).2.2.2.1⟩

/-- Witness for `minSize_preserved`: tripling the 100 × 100 image keeps both
dimensions at or above 16. -/
theorem minSize_preserved_witness :
    16 ≤ ({ cImg "a" with w := 300, h := 300 } : ImageItem).w
    ∧ 16 ≤ ({ cImg "a" with w := 300, h := 300 } : ImageItem).h := by
  have hall : ∀ i ∈ edImg100.state.images, imgFits (some ((800:ℚ), (600:ℚ))) i := by
    intro i hi
    have : i = cImg "a" := by simpa [edImg100, defaultState, initialEditor] using hi
    subst this
    norm_num [imgFits, cImg, contentSize]
  have happ := (minSize_preserved (some (800, 600)) edImg100 edImg100.state "a" 3
    100 100 300 300 hall hall).1
  have hcomp : (scaleImage (some (800, 600)) edImg100 "a" 3).state.images
      = [{ cImg "a" with w := 300, h := 300 }] := by
    have hfind : edImg100.state.images.find? (fun i => i.id == "a") = some (cImg "a") := rfl
    simp only [scaleImage, hfind, jsRound_eq_floor, pushHistory]
    norm_num [cImg, contentSize, edImg100, defaultState, initialEditor]
  have hmem : ({ cImg "a" with w := 300, h := 300 } : ImageItem)
      ∈ (scaleImage (some (800, 600)) edImg100 "a" 3).state.images := by
    rw [hcomp]
    exact List.mem_cons_self _ _
  exact happ _ hmem

/-- Counterexample to claim C5: dragging the text far to the right clamps
only the anchor x to contentWidth, so the final anchor sits at x = 800 and
the text's bounding box (width 50 under the concrete measure) sticks out of
the 800 × 600 frame, even though it was fully inside before the move. -/
theorem dragClamp_cex :
    textBoxInsideFrame mwFifty 800 600 tDrag
    ∧ (textDragMove (some (800, 600)) stDrag "t" 0 0 10000 300).texts
        = [{ tDrag with x := 800, y := 320 }]
    ∧ ¬ textBoxInsideFrame mwFifty 800 600 ({ tDrag with x := 800, y := 320 }) := by
  refine ⟨?_, ?_, ?_⟩
  · norm_num [textBoxInsideFrame, mwFifty, tDrag]
  · have hfind : stDrag.texts.find? (fun t => t.id == "t") = some tDrag := rfl
    simp only [textDragMove, hfind]
    norm_num [tDrag, stDrag, defaultState, contentSize]
  · norm_num [textBoxInsideFrame, mwFifty]

/-- Claim C5 as amended: on an image drag move the full bounding box is
clamped inside the frame (given the value-unique id found and dimensions
that fit), but on a text drag move only the anchor is clamped — x into
`[0, contentW]` and the baseline y into `[size, contentH]` — so the
vertical extent stays inside while the horizontal extent may overflow by up
to the measured text width (see the counterexample). -/
theorem dragClamp (nat? : Option (ℚ × ℚ)) :
    (∀ (st : EditorState) (id : String) (offX offY px py : ℚ) (it : ImageItem),
      st.images.find? (fun i => i.id == id) = some it →
      (∀ j ∈ st.images, j.id = id → j = it) →
      it.w ≤ (contentSize nat?).1 → it.h ≤ (contentSize nat?).2 →
      ∀ j ∈ (imageDragMove nat? st id offX offY px py).images, j.id = id →
        0 ≤ j.x ∧ j.x + j.w ≤ (contentSize nat?).1
        ∧ 0 ≤ j.y ∧ j.y + j.h ≤ (contentSize nat?).2)
    ∧ (∀ (st : EditorState) (id : String) (offX offY px py : ℚ) (t : TextItem),
      st.texts.find? (fun x => x.id == id) = some t →
      (∀ u ∈ st.texts, u.id = id → u = t) →
      0 < t.size → t.size ≤ (contentSize nat?).2 → 0 ≤ (contentSize nat?).1 →
      ∀ u ∈ (textDragMove nat? st id offX offY px py).texts, u.id = id →
        0 ≤ u.x ∧ u.x ≤ (contentSize nat?).1
        ∧ 0 ≤ u.y - u.size ∧ u.y ≤ (contentSize nat?).2) := by
  constructor
  · intro st id offX offY px py it hfind huniq hwW hhH j hj hjid
    simp only [imageDragMove, hfind] at hj
    obtain ⟨k, hk, rfl⟩ := List.mem_map.mp hj
    by_cases hk2 : (k.id == id) = true
    · have hke : k = it := huniq k hk (by simpa using hk2)
      subst hke
      rw [if_pos hk2]
      have h1 : max 0 (min ((contentSize nat?).1 - k.w) (px - offX))
          ≤ (contentSize nat?).1 - k.w :=
        max_le (by linarith) (min_le_left _ _)
      have h2 : max 0 (min ((contentSize nat?).2 - k.h) (py - offY))
          ≤ (contentSize nat?).2 - k.h :=
        max_le (by linarith) (min_le_left _ _)
      refine ⟨le_max_left 0 _, by simpa using by linarith [h1], le_max_left 0 _, by simpa using by linarith [h2]⟩
    · rw [if_neg hk2] at hjid
      exact absurd (by simp [hjid]) hk2
  · intro st id offX offY px py t hfind huniq hs0 hsH hW0 u hu huid
    simp only [textDragMove, hfind] at hu
    obtain ⟨k, hk, rfl⟩ := List.mem_map.mp hu
    by_cases hk2 : (k.id == id) = true
    · have hke : k = t := huniq k hk (by simpa using hk2)
      subst hke
      rw [if_pos hk2]
      refine ⟨le_max_left 0 _, max_le hW0 (min_le_left _ _), ?_, max_le hsH (min_le_left _ _)⟩
      have hle : k.size ≤ max k.size (min ((contentSize nat?).2) (py - offY + k.size)) :=
        le_max_left _ _
      simp only [sub_nonneg]
      exact hle
    · rw [if_neg hk2] at huid
      exact absurd (by simp [huid]) hk2

/-- Witness for `dragClamp`: a short drag of the 100 × 100 image to (50, 50)
stays fully inside the frame, and a text drag to anchor (300, 320) keeps
the anchor inside its clamp range. -/
theorem dragClamp_witness :
    (0 ≤ ({ cImg "a" with x := 50, y := 50 } : ImageItem).x
      ∧ ({ cImg "a" with x := 50, y := 50 } : ImageItem).x
          + ({ cImg "a" with x := 50, y := 50 } : ImageItem).w ≤ (contentSize (some (800, 600))).1
      ∧ 0 ≤ ({ cImg "a" with x := 50, y := 50 } : ImageItem).y
      ∧ ({ cImg "a" with x := 50, y := 50 } : ImageItem).y
          + ({ cImg "a" with x := 50, y := 50 } : ImageItem).h ≤ (contentSize (some (800, 600))).2)
    ∧ (0 ≤ ({ tDrag with x := 300, y := 320 } : TextItem).x
      ∧ ({ tDrag with x := 300, y := 320 } : TextItem).x ≤ (contentSize (some (800, 600))).1
      ∧ 0 ≤ ({ tDrag with x := 300, y := 320 } : TextItem).y
          - ({ tDrag with x := 300, y := 320 } : TextItem).size
      ∧ ({ tDrag with x := 300, y := 320 } : TextItem).y ≤ (contentSize (some (800, 600))).2) := by
  constructor
  · have hcomp : (imageDragMove (some (800, 600)) edImg100.state "a" 0 0 50 50).images
        = [{ cImg "a" with x := 50, y := 50 }] := by
      have hfind : edImg100.state.images.find? (fun i => i.id == "a") = some (cImg "a") := rfl
      simp only [imageDragMove, hfind]
      norm_num [cImg, contentSize, edImg100, defaultState, initialEditor]
    refine (dragClamp (some (800, 600))).1 edImg100.state "a" 0 0 50 50 (cImg "a") rfl
      ?_ (by norm_num [cImg, contentSize]) (by norm_num [cImg, contentSize])
      _ (by rw [hcomp]; exact List.mem_cons_self _ _) rfl
    intro j hj hjid
    simpa [edImg100, defaultState, initialEditor] using hj
  · have hcomp : (textDragMove (some (800, 600)) stDrag "t" 0 0 300 300).texts
        = [{ tDrag with x := 300, y := 320 }] := by
      have hfind : stDrag.texts.find? (fun t => t.id == "t") = some tDrag := rfl
      simp only [textDragMove, hfind]
      norm_num [tDrag, stDrag, defaultState, contentSize]
    refine (dragClamp (some (800, 600))).2 stDrag "t" 0 0 300 300 tDrag rfl
      ?_ (by norm_num [tDrag]) (by norm_num [tDrag, contentSize]) (by norm_num [contentSize])
      _ (by rw [hcomp]; exact List.mem_cons_self _ _) rfl
    intro u hu huid
    simpa [stDrag, defaultState] using hu

end Memelytics

namespace Memelytics

/-- Claim C10 (implicit): `undo`/`redo` never touch the selection ids; with
a selection id absent from the current snapshot `getSelectedText` /
`getSelectedImage` return null rather than failing; and every id-based
mutator aimed at a missing id leaves the layer sequences value-unchanged
(the early-returning ones leave the whole editor untouched). -/
theorem staleSelection (nat? : Option (ℚ × ℚ)) (natF : String → Option (ℚ × ℚ)) :
    (∀ ed : Editor,
      (undo ed).selectedTextId = ed.selectedTextId
      ∧ (undo ed).selectedImageId = ed.selectedImageId
      ∧ (redo ed).selectedTextId = ed.selectedTextId
      ∧ (redo ed).selectedImageId = ed.selectedImageId)
    ∧ (∀ (ed : Editor) (sid : String), ed.selectedTextId = some sid →
        (∀ t ∈ ed.state.texts, t.id ≠ sid) → getSelectedText ed = none)
    ∧ (∀ (ed : Editor) (sid : String), ed.selectedImageId = some sid →
        (∀ i ∈ ed.state.images, i.id ≠ sid) → getSelectedImage ed = none)
    ∧ (∀ (ed : Editor) (id : String) (p : TextPatch) (f : ℚ),
        (∀ t ∈ ed.state.texts, t.id ≠ id) → (∀ i ∈ ed.state.images, i.id ≠ id) →
        (updateText ed id p).state.texts = ed.state.texts
        ∧ (updateText ed id p).state.images = ed.state.images
        ∧ (removeText ed id).state.texts = ed.state.texts
        ∧ scaleImage nat? ed id f = ed
        ∧ bringForwardImage ed id = ed
        ∧ sendBackwardImage ed id = ed
        ∧ resetImageSize nat? natF ed id = ed
        ∧ (removeImage ed id).state.images = ed.state.images) := by
  refine ⟨?_, ?_, ?_, ?_⟩
  · intro ed
    refine ⟨?_, ?_, ?_, ?_⟩
    · unfold undo
      split <;> rfl
    · unfold undo
      split <;> rfl
    · unfold redo
      split <;> rfl
    · unfold redo
      split <;> rfl
  · intro ed sid hsel h
    simp only [getSelectedText, hsel]
    rw [List.find?_eq_none]
    intro t ht
    simp [h t ht]
  · intro ed sid hsel h
    simp only [getSelectedImage, hsel]
    rw [List.find?_eq_none]
    intro i hi
    simp [h i hi]
  · intro ed id p f ht hi
    have hfT : ed.state.texts.find? (fun x => x.id == id) = none :=
      List.find?_eq_none.mpr (fun x hx => by simp [ht x hx])
    have hfI : ed.state.images.find? (fun x => x.id == id) = none :=
      List.find?_eq_none.mpr (fun x hx => by simp [hi x hx])
    have hfIdx : ed.state.images.findIdx? (fun x => x.id == id) = none :=
      List.findIdx?_eq_none_iff.mpr (fun x hx => by simp [hi x hx])
    have hfilT : ed.state.texts.filter (fun t => !(t.id == id)) = ed.state.texts :=
      List.filter_eq_self.mpr (fun a ha => by simp [ht a ha])
    have hfilI : ed.state.images.filter (fun i => !(i.id == id)) = ed.state.images :=
      List.filter_eq_self.mpr (fun a ha => by simp [hi a ha])
    refine ⟨?_, rfl, ?_, ?_, ?_, ?_, ?_, ?_⟩
    · exact map_ite_id_of_not_mem (applyPatch p) ht
    · unfold removeText
      split
      · exact hfilT
      · exact hfilT
    · simp only [scaleImage, hfI]
    · simp only [bringForwardImage, hfIdx]
    · simp only [sendBackwardImage, hfIdx]
    · simp only [resetImageSize, hfI]
    · unfold removeImage
      split
      · exact hfilI
      · exact hfilI

/-- Witness for `staleSelection`: selection survival of undo on the initial
editor, a stale text selection reading null, and a missing-id scaleImage
being the identity. -/
theorem staleSelection_witness :
    (undo initialEditor).selectedTextId = initialEditor.selectedTextId
    ∧ getSelectedText { initialEditor with selectedTextId := some "z" } = none
    ∧ scaleImage none initialEditor "z" 2 = initialEditor := by
  refine ⟨((staleSelection none tinyNat).1 initialEditor).1, ?_, ?_⟩
  · exact (staleSelection none tinyNat).2.1 { initialEditor with selectedTextId := some "z" }
      "z" rfl (by intro t htm; simp [initialEditor, defaultState] at htm)
  · exact ((staleSelection none tinyNat).2.2.2 initialEditor "z" {} 2
      (by intro t htm; simp [initialEditor, defaultState] at htm)
      (by intro i him; simp [initialEditor, defaultState] at him)).2.2.2.1

/-- Claim C4: for a text resolved by the pointer-down hit loop, a point in
that text's rotate-handle circle always yields a rotate session, never drag
(the per-text zones are checked rotate, then resize, then body); and the
topmost text whose rotate circle contains the point wins regardless of the
texts below it. Since the rotate circle sits strictly above the body box
the claimed simultaneous containment is vacuous; this is the stronger,
non-vacuous priority fact behind it. -/
theorem hitPriority :
    (∀ (mw : TextItem → ℚ) (trig : ℚ → ℚ × ℚ) (pt : ℚ × ℚ) (texts : List TextItem)
        (t : TextItem) (k : HitKind),
      textHitLoop mw trig pt texts = some (t, k) →
      (hitTestTextLocal mw trig pt t).isOnRotate = true →
      k = HitKind.rotate ∧ k ≠ HitKind.drag)
    ∧ (∀ (mw : TextItem → ℚ) (trig : ℚ → ℚ × ℚ) (pt : ℚ × ℚ) (texts : List TextItem)
        (t : TextItem),
      (hitTestTextLocal mw trig pt t).isOnRotate = true →
      textHitLoop mw trig pt (texts ++ [t]) = some (t, HitKind.rotate)) := by
  constructor
  · intro mw trig pt texts t k hloop hrot
    obtain ⟨u, -, hu⟩ := List.exists_of_findSome?_eq_some hloop
    by_cases h1 : (hitTestTextLocal mw trig pt u).isOnRotate = true
    · rw [if_pos h1] at hu
      simp only [Option.some.injEq, Prod.mk.injEq] at hu
      refine ⟨hu.2.symm, ?_⟩
      rw [← hu.2]
      decide
    · have hut : u = t := by
        rw [if_neg h1] at hu
        by_cases h2 : (hitTestTextLocal mw trig pt u).isOnResize = true
        · rw [if_pos h2] at hu
          simp only [Option.some.injEq, Prod.mk.injEq] at hu
          exact hu.1
        · rw [if_neg h2] at hu
          by_cases h3 : (hitTestTextLocal mw trig pt u).within = true
          · rw [if_pos h3] at hu
            simp only [Option.some.injEq, Prod.mk.injEq] at hu
            exact hu.1
          · rw [if_neg h3] at hu
            cases hu
      exact absurd (hut ▸ hrot) h1
  · intro mw trig pt texts t hrot
    unfold textHitLoop
    rw [List.reverse_append]
    simp only [List.reverse_cons, List.reverse_nil, List.nil_append, List.singleton_append,
      List.findSome?_cons]
    rw [if_pos hrot]

/-- Witness for `hitPriority` at a concrete unrotated text and a point
inside its rotate-handle circle. -/
theorem hitPriority_witness :
    textHitLoop mwFifty trigZero (25, -16) ([] ++ [tHit]) = some (tHit, HitKind.rotate)
    ∧ (HitKind.rotate = HitKind.rotate ∧ HitKind.rotate ≠ HitKind.drag) := by
  have hrot : (hitTestTextLocal mwFifty trigZero (25, -16) tHit).isOnRotate = true := by
    simp only [hitTestTextLocal, measureText, mwFifty, trigZero, tHit, rotDeg,
      Option.getD_none, decide_eq_true_eq]
    norm_num
  have hloop := hitPriority.2 mwFifty trigZero (25, -16) [] tHit hrot
  exact ⟨hloop, hitPriority.1 mwFifty trigZero (25, -16) [tHit] tHit HitKind.rotate hloop hrot⟩

end Memelytics

namespace Memelytics

/-- Counterexample to claim C2: a stroke with one point inside and one
outside the 800 × 600 frame has a full extent that does not lie within the
frame, yet the export does not omit it — `getDataURL` filters the points
and still draws the remainder, so the export path does not omit exactly the
out-of-extent layers. -/
theorem exportBounds_cex :
    ((900 : ℚ), (10 : ℚ)) ∈ strokeOut.points
    ∧ pointInBounds 800 600 (900, 10) = false
    ∧ getDataURL true allEl mwFifty (some (800, 600)) stStroke
        = some { w := 800, h := 600, baseDrawn := true, drawnImages := [],
                 drawnTexts := [],
                 drawnStrokes := [{ strokeOut with points := [(10, 10)] }] } := by
  have hp1 : pointInBounds 800 600 ((10 : ℚ), (10 : ℚ)) = true := by
    simp only [pointInBounds, decide_eq_true_eq]
    norm_num
  have hp2 : pointInBounds 800 600 ((900 : ℚ), (10 : ℚ)) = false := by
    simp only [pointInBounds, decide_eq_false_iff_not]
    norm_num
  refine ⟨by simp [strokeOut], hp2, ?_⟩
  simp [getDataURL, getImageBounds, contentSize, stStroke, strokeOut, defaultState,
    hp1, hp2]

/-- Claim C2 as amended: in the fixed-frame export, text layers and
decodable overlay images are omitted exactly when their unrotated full
extent leaves `[0, W] × [0, H]`, while the preview draws every text, every
stroke and every decodable image with no bounds check; strokes, however,
are not omitted as whole layers but filtered pointwise (the
counterexample). In particular a text at x = W − 1 with measured width
above 1 is absent from the export and present in the preview. -/
theorem exportBounds (mw : TextItem → ℚ) (hasEl : String → Bool) (W H : ℚ)
    (st : EditorState) :
    (∀ out, getDataURL true hasEl mw (some (W, H)) st = some out →
      out.drawnTexts = st.texts.filter (fun t => textExportInBounds mw W H t)
      ∧ out.drawnImages = st.images.filter (fun it => hasEl it.id && imageExportInBounds W H it))
    ∧ (∀ pv, drawBaseCanvas hasEl (some (W, H)) st = some pv →
        pv.drawnTexts = st.texts
        ∧ pv.drawnImages = st.images.filter (fun it => hasEl it.id)
        ∧ pv.drawnStrokes = st.strokes)
    ∧ (∀ t ∈ st.texts, t.x = W - 1 → 1 < mw t →
        (∀ out, getDataURL true hasEl mw (some (W, H)) st = some out →
          t ∉ out.drawnTexts)
        ∧ (∀ pv, drawBaseCanvas hasEl (some (W, H)) st = some pv →
          t ∈ pv.drawnTexts)) := by
  have hexp : getDataURL true hasEl mw (some (W, H)) st
      = some { w := W, h := H, baseDrawn := true,
               drawnImages := st.images.filter (fun it => hasEl it.id && imageExportInBounds W H it),
               drawnTexts := st.texts.filter (fun t => textExportInBounds mw W H t),
               drawnStrokes := st.strokes.filterMap (fun s =>
                 let pts := s.points.filter (fun p => pointInBounds W H p)
                 if pts.length < 1 then none else some { s with points := pts }) } := rfl
  have hpv : drawBaseCanvas hasEl (some (W, H)) st
      = some { drawnImages := st.images.filter (fun it => hasEl it.id),
               drawnTexts := st.texts, drawnStrokes := st.strokes } := rfl
  refine ⟨?_, ?_, ?_⟩
  · intro out hout
    rw [hexp] at hout
    obtain rfl := Option.some.inj hout
    exact ⟨rfl, rfl⟩
  · intro pv hpv2
    rw [hpv] at hpv2
    obtain rfl := Option.some.inj hpv2
    exact ⟨rfl, rfl, rfl⟩
  · intro t ht hx hmw
    have hb : textExportInBounds mw W H t = false := by
      simp only [textExportInBounds, measureText, decide_eq_false_iff_not]
      rintro ⟨-, h2, -, -⟩
      rw [hx] at h2
      linarith
    constructor
    · intro out hout
      rw [hexp] at hout
      obtain rfl := Option.some.inj hout
      intro hmem
      have := (List.mem_filter.mp hmem).2
      rw [hb] at this
      cases this
    · intro pv hpv2
      rw [hpv] at hpv2
      obtain rfl := Option.some.inj hpv2
      exact ht

/-- Witness for `exportBounds`: the edge text at x = 799 in the 800 × 600
frame is dropped by the export and kept by the preview. -/
theorem exportBounds_witness :
    tEdge ∉ ({ w := 800, h := 600, baseDrawn := true, drawnImages := [],
               drawnTexts := [], drawnStrokes := [] } : ExportOutput).drawnTexts
    ∧ tEdge ∈ ({ drawnImages := [], drawnTexts := [tEdge],
                 drawnStrokes := [] } : PreviewOutput).drawnTexts := by
  have hb : textExportInBounds mwFifty 800 600 tEdge = false := by
    simp only [textExportInBounds, measureText, mwFifty, tEdge, decide_eq_false_iff_not]
    norm_num
  have h := (exportBounds mwFifty allEl 800 600 stEdge).2.2 tEdge
    (by simp [stEdge, defaultState]) (by norm_num [tEdge]) (by norm_num [mwFifty])
  have hexp : getDataURL true allEl mwFifty (some (800, 600)) stEdge
      = some { w := 800, h := 600, baseDrawn := true, drawnImages := [],
               drawnTexts := [], drawnStrokes := [] } := by
    simp [getDataURL, getImageBounds, contentSize, stEdge, defaultState, hb]
  have hpv : drawBaseCanvas allEl (some (800, 600)) stEdge
      = some { drawnImages := [], drawnTexts := [tEdge], drawnStrokes := [] } := rfl
  exact ⟨h.1 _ hexp, h.2 _ hpv⟩

/-- Counterexample to claim C7: with a mounted canvas and no base image
loaded, `getDataURL` still returns an encoded raster — the fixed 800 × 600
frame with only the background fill — rather than an empty or undefined
result. -/
theorem exportNoImage_cex :
    getDataURL true allEl mwFifty none defaultState
      = some { w := 800, h := 600, baseDrawn := false, drawnImages := [],
               drawnTexts := [], drawnStrokes := [] } := rfl

/-- Claim C7 as amended: `getDataURL` yields the empty result exactly when
the canvas element is unmounted; with a mounted canvas and no base image it
returns an encoded raster of the fixed 800 × 600 frame whose base-image
draw is skipped. -/
theorem exportNoImage (hasEl : String → Bool) (mw : TextItem → ℚ)
    (nat? : Option (ℚ × ℚ)) (st : EditorState) :
    getDataURL false hasEl mw nat? st = none
    ∧ (∀ out, getDataURL true hasEl mw none st = some out →
        out.baseDrawn = false ∧ out.w = 800 ∧ out.h = 600)
    ∧ (∃ out, getDataURL true hasEl mw none st = some out) := by
  refine ⟨rfl, ?_, ⟨_, rfl⟩⟩
  intro out hout
  have h0 : getDataURL true hasEl mw none st
      = some { w := 800, h := 600, baseDrawn := false,
               drawnImages := st.images.filter (fun it => hasEl it.id && imageExportInBounds 800 600 it),
               drawnTexts := st.texts.filter (fun t => textExportInBounds mw 800 600 t),
               drawnStrokes := st.strokes.filterMap (fun s =>
                 let pts := s.points.filter (fun p => pointInBounds 800 600 p)
                 if pts.length < 1 then none else some { s with points := pts }) } := rfl
  rw [h0] at hout
  obtain rfl := Option.some.inj hout
  exact ⟨rfl, rfl, rfl⟩

/-- Witness for `exportNoImage` on the default empty state. -/
theorem exportNoImage_witness :
    (⟨800, 600, false, [], [], []⟩ : ExportOutput).baseDrawn = false
    ∧ (⟨800, 600, false, [], [], []⟩ : ExportOutput).w = 800
    ∧ (⟨800, 600, false, [], [], []⟩ : ExportOutput).h = 600 :=
  (exportNoImage allEl mwFifty none defaultState).2.1 _ rfl

end Memelytics
